import Mathlib

/-!
Verification of `update_licenses.py`, a utility that rewrites MIT-style
license headers to a fixed proprietary notice.

The script's behaviour is embedded shallowly:

* Python strings are `List Char`.
* The regular expression `MIT_LICENSE_PATTERN` (compiled with
  `re.MULTILINE | re.DOTALL`) is embedded as a term of a small regex AST
  covering exactly the constructs the pattern uses (literal characters,
  character classes, concatenation, greedy star, lazy star).  The matcher
  `mtch` enumerates match results in Python's backtracking priority order
  (greedy star: longest continuation first; lazy star: empty first), so
  the head of the result list is the match Python's engine produces.
  `re.sub(..., count=1)` is embedded as `sub1`: replace the
  backtracking-preferred match at the leftmost position where any match
  starts.
* File I/O effects of `update_file` are embedded with explicit outcomes:
  a read either returns the on-disk content or raises, and a write attempt
  either succeeds, raises at `open` (disk untouched), or raises after the
  truncating `open(..., 'w')` succeeded having written `k` characters
  (disk holds the first `k` characters of the new content).  The broad
  `except` of the source maps every raising outcome to the `False` result.
* `main`'s traversal is embedded over an abstract directory listing: for
  each extension, `Path.rglob` yields the listed entries whose path ends
  with the extension (the patterns contain no path separator, so matching
  the final name component against the glob equals a suffix test on the
  whole path string), and each surviving candidate is processed in order,
  threading the file store.
-/

/-- Python's `\s` class for `str` patterns: ASCII whitespace plus the
Unicode whitespace code points matched by `re` in Unicode mode. -/
def isPySpace (c : Char) : Bool :=
  c.toNat = 32 || c.toNat = 9 || c.toNat = 10 || c.toNat = 11 ||
  c.toNat = 12 || c.toNat = 13 ||
  (28 ≤ c.toNat && c.toNat ≤ 31) || c.toNat = 133 || c.toNat = 160 ||
  c.toNat = 0x1680 || (0x2000 ≤ c.toNat && c.toNat ≤ 0x200a) ||
  c.toNat = 0x2028 || c.toNat = 0x2029 || c.toNat = 0x202f ||
  c.toNat = 0x205f || c.toNat = 0x3000

/-- Base code points of the decimal-digit runs of Unicode 14.0:
category Nd is exactly the union of the runs `b .. b + 9` over these
bases, the digit `0` of each script first. -/
def ndDigitBases : List Nat :=
  [0x30, 0x660, 0x6f0, 0x7c0, 0x966, 0x9e6, 0xa66, 0xae6, 0xb66, 0xbe6,
   0xc66, 0xce6, 0xd66, 0xde6, 0xe50, 0xed0, 0xf20, 0x1040, 0x1090,
   0x17e0, 0x1810, 0x1946, 0x19d0, 0x1a80, 0x1a90, 0x1b50, 0x1bb0,
   0x1c40, 0x1c50, 0xa620, 0xa8d0, 0xa900, 0xa9d0, 0xa9f0, 0xaa50,
   0xabf0, 0xff10, 0x104a0, 0x10d30, 0x11066, 0x110f0, 0x11136,
   0x111d0, 0x112f0, 0x11450, 0x114d0, 0x11650, 0x116c0, 0x11730,
   0x118e0, 0x11950, 0x11c50, 0x11d50, 0x11da0, 0x16a60, 0x16ac0,
   0x16b50, 0x1d7ce, 0x1d7d8, 0x1d7e2, 0x1d7ec, 0x1d7f6, 0x1e140,
   0x1e2f0, 0x1e950, 0x1fbf0]

/-- Python's `\d` class for a `str` pattern compiled without
`re.ASCII`: any Unicode decimal digit, i.e. category Nd. -/
def isPyDigit (c : Char) : Bool :=
  ndDigitBases.any (fun b => b ≤ c.toNat && c.toNat ≤ b + 9)

/-- Regex AST: exactly the constructs `MIT_LICENSE_PATTERN` uses.
`starG` is a greedy `*`, `starL` a lazy `*?`. -/
inductive Regex : Type where
  | epsilon : Regex
  | char : Char → Regex
  | cls : (Char → Bool) → Regex
  | cat : Regex → Regex → Regex
  | starG : Regex → Regex
  | starL : Regex → Regex

/-- Number of AST nodes, used to size the matcher's fuel. -/
def sizeRe : Regex → Nat
  | Regex.epsilon => 1
  | Regex.char _ => 1
  | Regex.cls _ => 1
  | Regex.cat a b => sizeRe a + sizeRe b + 1
  | Regex.starG a => sizeRe a + 1
  | Regex.starL a => sizeRe a + 1

/-- Backtracking matcher.  `mtch f r s` lists the suffixes of `s` left
over after matching a prefix of `s` against `r`, in backtracking
priority order (head = the alternative Python's engine commits to).
A star never repeats on an empty match (the `filter`), mirroring the
engine's empty-match rule.  Every recursive call strictly decreases
`s.length + sizeRe r`, so fuel `s.length + sizeRe r + 1` is never
exhausted and the `0` equation is unreachable at the fuel used below. -/
def mtch : Nat → Regex → List Char → List (List Char)
  | 0, _, _ => []
  | _ + 1, Regex.epsilon, s => [s]
  | _ + 1, Regex.char _, [] => []
  | _ + 1, Regex.char c, x :: xs => if x = c then [xs] else []
  | _ + 1, Regex.cls _, [] => []
  | _ + 1, Regex.cls p, x :: xs => if p x then [xs] else []
  | f + 1, Regex.cat r1 r2, s =>
      (mtch f r1 s).flatMap (fun s1 => mtch f r2 s1)
  | f + 1, Regex.starG r, s =>
      ((mtch f r s).filter (fun s1 => decide (s1.length < s.length))).flatMap
        (fun s1 => mtch f (Regex.starG r) s1) ++ [s]
  | f + 1, Regex.starL r, s =>
      s :: ((mtch f r s).filter (fun s1 => decide (s1.length < s.length))).flatMap
        (fun s1 => mtch f (Regex.starL r) s1)

/-- Leftmost search, as `re`'s scanning for `sub`: try a match at the
current position; on failure advance one character.  On success at a
position, return (text before the match, matched text, text after). -/
def findLeftmost (r : Regex) (fuel : Nat) : List Char →
    Option (List Char × List Char × List Char)
  | [] =>
    match (mtch fuel r []).head? with
    | some rest => some ([], ([] : List Char).take (0 - rest.length), rest)
    | none => none
  | x :: xs =>
    match (mtch fuel r (x :: xs)).head? with
    | some rest =>
      some ([], (x :: xs).take ((x :: xs).length - rest.length), rest)
    | none =>
      (findLeftmost r fuel xs).map (fun pr => (x :: pr.1, pr.2.1, pr.2.2))

/-- `pattern.sub(repl, s, count=1)`: replace the first (leftmost,
backtracking-preferred) match of `r` in `s` by `repl`; if there is no
match, return `s` unchanged.  The replacement text of the script holds
no backreference, so it is spliced literally. -/
def sub1 (r : Regex) (repl : List Char) (s : List Char) : List Char :=
  match findLeftmost r (s.length + sizeRe r + 1) s with
  | none => s
  | some pr => pr.1 ++ repl ++ pr.2.2

/-- Concatenation of a literal string of characters. -/
def rLit : List Char → Regex
  | [] => Regex.epsilon
  | c :: cs => Regex.cat (Regex.char c) (rLit cs)

/-- Concatenation of a sequence of regexes. -/
def rCats : List Regex → Regex
  | [] => Regex.epsilon
  | r :: rs => Regex.cat r (rCats rs)

/-- Greedy `\s*`. -/
def rWS : Regex := Regex.starG (Regex.cls isPySpace)

/-- `\d`. -/
def rDigit : Regex := Regex.cls isPyDigit

/-- `.` under `re.DOTALL`: any character, newline included. -/
def rDot : Regex := Regex.cls (fun _ => true)

/-- The script's `MIT_LICENSE_PATTERN`, node for node:
opening of a block comment, a line attributing copyright to the fixed
name with a four-digit year, a bare `*` line, a lazy repetition of
further comment lines, and the comment close followed by a newline.
(`re.MULTILINE` only changes anchors, which the pattern does not use.) -/
def MIT_LICENSE_PATTERN : Regex :=
  rCats [
    rLit ("/**").data, rWS, Regex.char '\n',
    rWS, Regex.char '*', rWS, rLit ("Copyright (c) ").data,
    rDigit, rDigit, rDigit, rDigit,
    rLit (" Philip L. Giacalone").data, rWS, Regex.char '\n',
    rWS, Regex.char '*', rWS, Regex.char '\n',
    Regex.starL (rCats [rWS, Regex.char '*', Regex.starL rDot, Regex.char '\n']),
    rWS, rLit ("*/").data, rWS, Regex.char '\n'
  ]

/-- The script's `PROPRIETARY_HEADER` constant, verbatim. -/
def PROPRIETARY_HEADER : List Char :=
  ("/**\n * Copyright (c) 2025 Philip L. Giacalone. All Rights Reserved.\n *\n * This software and associated documentation files (the \"Software\") are the\n * proprietary and confidential property of Philip L. Giacalone.\n *\n * Unauthorized copying, modification, distribution, or use of this Software,\n * via any medium, is strictly prohibited and may be subject to civil and\n * criminal penalties.\n *\n * The Software is protected by copyright laws and international copyright\n * treaties, as well as other intellectual property laws and treaties.\n */").data

/-- Python's substring test `needle in hay`. -/
def containsSub (needle hay : List Char) : Bool :=
  hay.tails.any (fun t => needle.isPrefixOf t)

/-- The signature substring `'Permission is hereby granted'`. -/
def signature : List Char := ("Permission is hereby granted").data

/-- `MIT_LICENSE_PATTERN.sub(PROPRIETARY_HEADER + '\n\n', content, count=1)`. -/
def newContentOf (content : List Char) : List Char :=
  sub1 MIT_LICENSE_PATTERN (PROPRIETARY_HEADER ++ ('\n' :: '\n' :: [])) content

/-- The content transformation of `update_file` on a successful read:
the substitution is attempted only when the signature substring is
present; otherwise the content is untouched. -/
def updateContent (content : List Char) : List Char :=
  if containsSub signature content then newContentOf content else content

/-- Outcome of the `open(...,'r')`/`f.read()` step: either it returns the
on-disk content, or it raises (I/O or decode error). -/
inductive ReadOutcome : Type where
  | ok : ReadOutcome
  | fail : ReadOutcome
deriving DecidableEq

/-- Outcome of a write attempt, per the semantics of `open(path, 'w')`
followed by `f.write(new_content)`: success; an exception at `open`
(disk untouched); or an exception after the truncating `open` succeeded,
with `k` characters of the new content already written. -/
inductive WriteOutcome : Type where
  | ok : WriteOutcome
  | failOpen : WriteOutcome
  | failPartial : Nat → WriteOutcome
deriving DecidableEq

/-- The I/O behaviour the environment hands one `update_file` call. -/
structure FileEnv : Type where
  read : ReadOutcome
  write : WriteOutcome
deriving DecidableEq

/-- `update_file(filepath)`: returns the Python result (`True` =
updated) together with the file's on-disk content after the call.
Any raising outcome lands in the `except` clause, which prints and
falls through to `return False`. -/
def update_file (env : FileEnv) (disk : List Char) : Bool × List Char :=
  match env.read with
  | ReadOutcome.fail => (false, disk)
  | ReadOutcome.ok =>
    if containsSub signature disk then
      let new_content := newContentOf disk
      if new_content ≠ disk then
        match env.write with
        | WriteOutcome.ok => (true, new_content)
        | WriteOutcome.failOpen => (false, disk)
        | WriteOutcome.failPartial k => (false, new_content.take k)
      else (false, disk)
    else (false, disk)

/-- One entry of the abstract directory listing `main` traverses:
its path string, whether it is a regular file, and the I/O behaviour
its processing would see.  Contents live in the `Store`. -/
structure Entry : Type where
  path : List Char
  isFile : Bool
  env : FileEnv
deriving DecidableEq

/-- The file store: path string to content. -/
def Store : Type := List Char → List Char

/-- The fixed exclusion substrings of `should_process_file`. -/
def exclusions : List (List Char) :=
  [("node_modules").data, ("dist").data, ("electron/node_modules").data,
   ("electron/release").data, ("electron/app").data, (".git").data,
   ("update_licenses.py").data, ("update_licenses.sh").data]

/-- `should_process_file(filepath)`: no exclusion substring occurs in
the path string. -/
def should_process_file (path : List Char) : Bool :=
  ! exclusions.any (fun excl => containsSub excl path)

/-- The fixed extension list of `main`. -/
def extensions : List (List Char) :=
  [(".ts").data, (".tsx").data, (".js").data, (".jsx").data]

/-- Whether `root.rglob('*' + ext)` yields this entry: the glob pattern
holds no path separator, so matching the final name component against
`*ext` is a suffix test on the path string. -/
def rglobMatches (ext : List Char) (e : Entry) : Bool :=
  ext.isSuffixOf e.path

/-- The entries `main` processes (reads, and possibly writes), in
order: for each extension in order, the listed entries matching the
glob that pass `should_process_file` and `is_file()`. -/
def visitedEntries (fs : List Entry) : List Entry :=
  extensions.flatMap (fun ext =>
    (fs.filter (fun e => rglobMatches ext e)).filter
      (fun e => should_process_file e.path && e.isFile))

/-- The paths the run opens for reading: exactly the visited entries. -/
def pathsRead (fs : List Entry) : List (List Char) :=
  (visitedEntries fs).map (fun e => e.path)

/-- The body of `main`'s loop for one candidate: call `update_file`,
store the resulting content at the entry's path, bump the counter on a
`True` result. -/
def runStep (st : Store × Nat) (e : Entry) : Store × Nat :=
  let r := update_file e.env (st.1 e.path)
  ((fun p => if p = e.path then r.2 else st.1 p),
   st.2 + (if r.1 then 1 else 0))

/-- `main()` over the abstract listing `fs` with initial contents
`init`: process every visited entry in order; result is the final store
and `updated_count`. -/
def runMain (fs : List Entry) (init : Store) : Store × Nat :=
  (visitedEntries fs).foldl runStep (init, 0)

/-- Every result of the matcher is a suffix of its input: matching only
consumes a prefix. -/
theorem mtch_suffix (f : Nat) :
    ∀ (r : Regex) (s out : List Char), out ∈ mtch f r s → out <:+ s := by
  induction f with
  | zero =>
    intro r s out h
    simp only [mtch, List.not_mem_nil] at h
  | succ f ih =>
    intro r s out h
    cases r with
    | epsilon =>
      simp only [mtch, List.mem_singleton] at h
      exact h ▸ List.suffix_refl s
    | char c =>
      cases s with
      | nil => simp only [mtch, List.not_mem_nil] at h
      | cons x xs =>
        simp only [mtch] at h
        split at h
        · simp only [List.mem_singleton] at h
          exact h ▸ List.suffix_cons x xs
        · simp only [List.not_mem_nil] at h
    | cls p =>
      cases s with
      | nil => simp only [mtch, List.not_mem_nil] at h
      | cons x xs =>
        simp only [mtch] at h
        split at h
        · simp only [List.mem_singleton] at h
          exact h ▸ List.suffix_cons x xs
        · simp only [List.not_mem_nil] at h
    | cat r1 r2 =>
      simp only [mtch, List.mem_flatMap] at h
      obtain ⟨s1, hs1, hout⟩ := h
      exact (ih r2 s1 out hout).trans (ih r1 s s1 hs1)
    | starG r =>
      simp only [mtch, List.mem_append, List.mem_flatMap, List.mem_filter,
        List.mem_singleton] at h
      cases h with
      | inl h =>
        obtain ⟨s1, ⟨hs1, _⟩, hout⟩ := h
        exact (ih (Regex.starG r) s1 out hout).trans (ih r s s1 hs1)
      | inr h => exact h ▸ List.suffix_refl s
    | starL r =>
      simp only [mtch, List.mem_cons, List.mem_flatMap, List.mem_filter] at h
      cases h with
      | inl h => exact h ▸ List.suffix_refl s
      | inr h =>
        obtain ⟨s1, ⟨hs1, _⟩, hout⟩ := h
        exact (ih (Regex.starL r) s1 out hout).trans (ih r s s1 hs1)

/-- At a position where the matcher has a hit: the input decomposes as
matched part ++ leftover. -/
theorem head_decomp (fuel : Nat) (r : Regex) (s rest : List Char)
    (hh : (mtch fuel r s).head? = some rest) :
    s.take (s.length - rest.length) ++ rest = s := by
  have hmem : rest ∈ mtch fuel r s := by
    cases hm : mtch fuel r s with
    | nil => rw [hm] at hh; simp at hh
    | cons a l =>
      rw [hm] at hh
      simp only [List.head?_cons, Option.some.injEq] at hh
      subst hh
      exact List.mem_cons_self a l
  obtain ⟨pre, hpre⟩ := mtch_suffix fuel r s rest hmem
  have hlen : s.length - rest.length = pre.length := by
    rw [← hpre]
    simp [List.length_append]
  rw [hlen, ← hpre, List.take_left]

/-- Soundness of the leftmost search: a hit decomposes the input, the
matched part is the backtracking-preferred match at that position, and
no match starts at any strictly earlier position. -/
theorem findLeftmost_sound (r : Regex) (fuel : Nat) :
    ∀ (s p m t : List Char), findLeftmost r fuel s = some (p, m, t) →
      s = p ++ m ++ t ∧ (mtch fuel r (m ++ t)).head? = some t ∧
      ∀ q u, s = q ++ u → q.length < p.length → (mtch fuel r u).head? = none := by
  intro s
  induction s with
  | nil =>
    intro p m t h
    simp only [findLeftmost] at h
    cases hh : (mtch fuel r []).head? with
    | some rest =>
      rw [hh] at h
      have h3 : (([] : List Char), ([] : List Char).take (0 - rest.length), rest)
          = (p, m, t) := Option.some.inj h
      injection h3 with hp h4
      injection h4 with hm ht
      have hd := head_decomp fuel r [] rest hh
      simp only [List.take_nil] at hd hm
      simp only [List.nil_append] at hd
      subst hp; subst hm; subst ht; subst hd
      refine ⟨rfl, hh, ?_⟩
      intro q u _ hlt
      exact absurd hlt (Nat.not_lt_zero q.length)
    | none =>
      rw [hh] at h
      exact absurd h (Option.noConfusion)
  | cons x xs ih =>
    intro p m t h
    simp only [findLeftmost] at h
    cases hh : (mtch fuel r (x :: xs)).head? with
    | some rest =>
      rw [hh] at h
      have h3 : (([] : List Char),
          (x :: xs).take ((x :: xs).length - rest.length), rest)
          = (p, m, t) := Option.some.inj h
      injection h3 with hp h4
      injection h4 with hm ht
      have hd := head_decomp fuel r (x :: xs) rest hh
      subst hp; subst hm; subst ht
      refine ⟨?_, ?_, ?_⟩
      · simp only [List.nil_append]
        exact hd.symm
      · rw [hd]
        exact hh
      · intro q u _ hlt
        exact absurd hlt (Nat.not_lt_zero q.length)
    | none =>
      rw [hh] at h
      cases hrec : findLeftmost r fuel xs with
      | none =>
        rw [hrec] at h
        exact absurd h (Option.noConfusion)
      | some pr =>
        obtain ⟨p1, m1, t1⟩ := pr
        rw [hrec] at h
        have h3 : (x :: p1, m1, t1) = (p, m, t) := Option.some.inj h
        injection h3 with hp h4
        injection h4 with hm ht
        obtain ⟨ihd, ihh, ihleft⟩ := ih p1 m1 t1 hrec
        subst hp; subst hm; subst ht
        refine ⟨by rw [ihd]; simp, ihh, ?_⟩
        intro q u hqu hlt
        cases q with
        | nil =>
          simp only [List.nil_append] at hqu
          rw [← hqu]
          exact hh
        | cons y q1 =>
          simp only [List.cons_append, List.cons.injEq] at hqu
          obtain ⟨hy, hxs⟩ := hqu
          apply ihleft q1 u hxs
          simpa using hlt

/-- C1: for content holding the signature substring and matched by the
header pattern, `update_file` replaces exactly the first match — the
content splits as `p ++ m ++ t` with no match starting inside `p`, `m`
the match the engine commits to at that position — by the fixed
replacement text followed by two newlines; the suffix `t` is carried
over verbatim, so the replacement happens at most once. -/
theorem update_file_replaces_first_match
    (c p m t : List Char)
    (hsig : containsSub signature c = true)
    (hfind : findLeftmost MIT_LICENSE_PATTERN
      (c.length + sizeRe MIT_LICENSE_PATTERN + 1) c = some (p, m, t)) :
    updateContent c = p ++ PROPRIETARY_HEADER ++ ('\n' :: '\n' :: []) ++ t ∧
    c = p ++ m ++ t ∧
    ∀ q u, c = q ++ u → q.length < p.length →
      (mtch (c.length + sizeRe MIT_LICENSE_PATTERN + 1)
        MIT_LICENSE_PATTERN u).head? = none := by
  obtain ⟨hdec, _, hleft⟩ :=
    findLeftmost_sound MIT_LICENSE_PATTERN
      (c.length + sizeRe MIT_LICENSE_PATTERN + 1) c p m t hfind
  refine ⟨?_, hdec, hleft⟩
  unfold updateContent newContentOf sub1
  rw [hsig, hfind]
  simp [List.append_assoc]

/-- Concrete input for the C1 witness: a matching header (holding the
signature line) followed by code. -/
def w1 : List Char :=
  ("/**\n * Copyright (c) 2023 Philip L. Giacalone\n *\n * Permission is hereby granted\n */\nx = 1\n").data

set_option maxRecDepth 10000 in
/-- Witness for C1 at a concrete file content. -/
theorem update_file_replaces_first_match_witness :
    (containsSub signature w1 = true ∧
      findLeftmost MIT_LICENSE_PATTERN
        (w1.length + sizeRe MIT_LICENSE_PATTERN + 1) w1
        = some ([],
            ("/**\n * Copyright (c) 2023 Philip L. Giacalone\n *\n * Permission is hereby granted\n */\n").data,
            ("x = 1\n").data)) ∧
    (updateContent w1
        = [] ++ PROPRIETARY_HEADER ++ ('\n' :: '\n' :: []) ++ ("x = 1\n").data ∧
      w1 = [] ++ ("/**\n * Copyright (c) 2023 Philip L. Giacalone\n *\n * Permission is hereby granted\n */\n").data ++ ("x = 1\n").data ∧
      ∀ q u, w1 = q ++ u → q.length < List.length ([] : List Char) →
        (mtch (w1.length + sizeRe MIT_LICENSE_PATTERN + 1)
          MIT_LICENSE_PATTERN u).head? = none) :=
  ⟨⟨by decide, by decide⟩,
    update_file_replaces_first_match w1 []
      (("/**\n * Copyright (c) 2023 Philip L. Giacalone\n *\n * Permission is hereby granted\n */\n").data)
      (("x = 1\n").data) (by decide) (by decide)⟩

/-- C3: for content holding the signature substring and a header block
shaped per the pattern, one run replaces only the first matching block:
the content before and after the substitution share the suffix `t`
following the matched block byte for byte. -/
theorem update_preserves_suffix_after_header
    (c p m t : List Char)
    (hsig : containsSub signature c = true)
    (hfind : findLeftmost MIT_LICENSE_PATTERN
      (c.length + sizeRe MIT_LICENSE_PATTERN + 1) c = some (p, m, t)) :
    c = p ++ m ++ t ∧
    updateContent c = p ++ (PROPRIETARY_HEADER ++ ('\n' :: '\n' :: [])) ++ t := by
  obtain ⟨hdec, _, _⟩ :=
    findLeftmost_sound MIT_LICENSE_PATTERN
      (c.length + sizeRe MIT_LICENSE_PATTERN + 1) c p m t hfind
  refine ⟨hdec, ?_⟩
  unfold updateContent newContentOf sub1
  rw [hsig, hfind]
  rfl

/-- Concrete input for the C3 witness: the spec's scenario, a header
block followed by `export const x = 1;`. -/
def w3 : List Char :=
  ("/**\n * Copyright (c) 2021 Philip L. Giacalone\n *\n * Permission is hereby granted\n */\nexport const x = 1;\n").data

set_option maxRecDepth 10000 in
/-- Witness for C3 at a concrete file content. -/
theorem update_preserves_suffix_after_header_witness :
    (containsSub signature w3 = true ∧
      findLeftmost MIT_LICENSE_PATTERN
        (w3.length + sizeRe MIT_LICENSE_PATTERN + 1) w3
        = some ([],
            ("/**\n * Copyright (c) 2021 Philip L. Giacalone\n *\n * Permission is hereby granted\n */\n").data,
            ("export const x = 1;\n").data)) ∧
    (w3 = [] ++ ("/**\n * Copyright (c) 2021 Philip L. Giacalone\n *\n * Permission is hereby granted\n */\n").data ++ ("export const x = 1;\n").data ∧
      updateContent w3
        = [] ++ (PROPRIETARY_HEADER ++ ('\n' :: '\n' :: [])) ++ ("export const x = 1;\n").data) :=
  ⟨⟨by decide, by decide⟩,
    update_preserves_suffix_after_header w3 []
      (("/**\n * Copyright (c) 2021 Philip L. Giacalone\n *\n * Permission is hereby granted\n */\n").data)
      (("export const x = 1;\n").data) (by decide) (by decide)⟩

/-- C10: the pattern is not anchored to the start of the file — when
the leftmost match is preceded by a nonempty stretch of non-matching
text `p`, the mid-file header block is still rewritten in place. -/
theorem pattern_unanchored_midfile_replacement
    (c p m t : List Char)
    (hsig : containsSub signature c = true)
    (hfind : findLeftmost MIT_LICENSE_PATTERN
      (c.length + sizeRe MIT_LICENSE_PATTERN + 1) c = some (p, m, t))
    (hp : p ≠ []) :
    updateContent c = p ++ PROPRIETARY_HEADER ++ ('\n' :: '\n' :: []) ++ t ∧
    c = p ++ m ++ t ∧ p ≠ [] := by
  obtain ⟨hdec, _, _⟩ :=
    findLeftmost_sound MIT_LICENSE_PATTERN
      (c.length + sizeRe MIT_LICENSE_PATTERN + 1) c p m t hfind
  refine ⟨?_, hdec, hp⟩
  unfold updateContent newContentOf sub1
  rw [hsig, hfind]
  simp [List.append_assoc]

/-- Concrete input for the C10 witness: code lines precede the header
block, which sits mid-file. -/
def w10 : List Char :=
  ("const y = 2;\n" ++ "/**\n * Copyright (c) 2022 Philip L. Giacalone\n *\n * Permission is hereby granted\n */\nmore();\n").data

set_option maxRecDepth 10000 in
/-- Witness for C10 at a concrete file content with a mid-file header. -/
theorem pattern_unanchored_midfile_replacement_witness :
    (containsSub signature w10 = true ∧
      findLeftmost MIT_LICENSE_PATTERN
        (w10.length + sizeRe MIT_LICENSE_PATTERN + 1) w10
        = some (("const y = 2;\n").data,
            ("/**\n * Copyright (c) 2022 Philip L. Giacalone\n *\n * Permission is hereby granted\n */\n").data,
            ("more();\n").data) ∧
      ("const y = 2;\n").data ≠ ([] : List Char)) ∧
    (updateContent w10
        = ("const y = 2;\n").data ++ PROPRIETARY_HEADER ++ ('\n' :: '\n' :: []) ++ ("more();\n").data ∧
      w10 = ("const y = 2;\n").data ++ ("/**\n * Copyright (c) 2022 Philip L. Giacalone\n *\n * Permission is hereby granted\n */\n").data ++ ("more();\n").data ∧
      ("const y = 2;\n").data ≠ ([] : List Char)) :=
  ⟨⟨by decide, by decide, by decide⟩,
    pattern_unanchored_midfile_replacement w10
      (("const y = 2;\n").data)
      (("/**\n * Copyright (c) 2022 Philip L. Giacalone\n *\n * Permission is hereby granted\n */\n").data)
      (("more();\n").data) (by decide) (by decide) (by decide)⟩

/-- Concrete input refuting C2: two plain header blocks (neither of
which holds the signature substring) followed by a line holding the
signature.  The first run replaces only the first block; the signature
and the second block survive, so the second run rewrites the file
again. -/
def c2input : List Char :=
  ("/**\n * Copyright (c) 2023 Philip L. Giacalone\n *\n */\n/**\n * Copyright (c) 2023 Philip L. Giacalone\n *\n */\nPermission is hereby granted\n").data

set_option maxRecDepth 100000 in
/-- Counterexample to C2: running the content transformation twice on
`c2input` does not equal running it once, and after the first run the
content still holds the signature substring. -/
theorem second_run_changes_file_again :
    updateContent (updateContent c2input) ≠ updateContent c2input ∧
    containsSub signature (updateContent c2input) = true := by
  constructor
  · decide
  · decide

/-- C2 amended: the second run is a no-op exactly on files whose
content after the first run no longer holds the signature substring
(which the claim's own reasoning presumed, but which the code does not
guarantee: the matched block need not be the part holding the
signature). -/
theorem second_run_fixpoint_when_signature_gone
    (c : List Char)
    (h : containsSub signature (updateContent c) = false) :
    updateContent (updateContent c) = updateContent c := by
  have e : updateContent (updateContent c)
      = if containsSub signature (updateContent c) = true then
          newContentOf (updateContent c)
        else updateContent c := rfl
  rw [e, h]
  simp

/-- Concrete input for the amended-C2 witness: a single header block
holding the signature line, so the first run removes the signature. -/
def w2 : List Char :=
  ("/**\n * Copyright (c) 2020 Philip L. Giacalone\n *\n * Permission is hereby granted\n */\nrest();\n").data

set_option maxRecDepth 100000 in
/-- Witness for the amended C2 at a concrete file content. -/
theorem second_run_fixpoint_when_signature_gone_witness :
    containsSub signature (updateContent w2) = false ∧
    updateContent (updateContent w2) = updateContent w2 :=
  ⟨by decide, second_run_fixpoint_when_signature_gone w2 (by decide)⟩

/-- If the leftmost search finds no match, the substitution returns the
content unchanged. -/
theorem newContentOf_eq_of_no_match (c : List Char)
    (h : findLeftmost MIT_LICENSE_PATTERN
      (c.length + sizeRe MIT_LICENSE_PATTERN + 1) c = none) :
    newContentOf c = c := by
  unfold newContentOf sub1
  rw [h]

/-- C4: a file whose content lacks the signature substring is left
unmodified on disk and reported not updated, whatever the I/O
environment does. -/
theorem no_signature_no_modification
    (env : FileEnv) (c : List Char)
    (h : containsSub signature c = false) :
    update_file env c = (false, c) := by
  obtain ⟨r, w⟩ := env
  cases r with
  | fail => rfl
  | ok =>
    unfold update_file
    rw [h]
    simp

/-- Concrete input for the C4 witness. -/
def w4 : List Char := ("const a = 1;\n").data

/-- Witness for C4 at a concrete file content. -/
theorem no_signature_no_modification_witness :
    containsSub signature w4 = false ∧
    update_file ⟨ReadOutcome.ok, WriteOutcome.ok⟩ w4 = (false, w4) :=
  ⟨by decide,
    no_signature_no_modification ⟨ReadOutcome.ok, WriteOutcome.ok⟩ w4 (by decide)⟩

/-- C5: a write happens exactly when the (conditionally) substituted
content differs from the original: with read and write succeeding, the
call returns `True` with the new content on disk precisely when
`updateContent` changes the content, else `False` with the disk
untouched; and when the signature is present but the pattern has no
match, no write is attempted under any environment and the result is
not-updated. -/
theorem write_iff_content_differs :
    (∀ c : List Char,
      update_file ⟨ReadOutcome.ok, WriteOutcome.ok⟩ c
        = if updateContent c = c then (false, c) else (true, updateContent c)) ∧
    (∀ (env : FileEnv) (c : List Char),
      containsSub signature c = true →
      findLeftmost MIT_LICENSE_PATTERN
        (c.length + sizeRe MIT_LICENSE_PATTERN + 1) c = none →
      update_file env c = (false, c)) := by
  constructor
  · intro c
    unfold update_file updateContent
    cases hsig : containsSub signature c with
    | false => simp [hsig]
    | true =>
      simp only [hsig, if_true]
      cases hne : decide (newContentOf c = c) with
      | true =>
        have he : newContentOf c = c := of_decide_eq_true hne
        simp [he]
      | false =>
        have he : ¬ (newContentOf c = c) := of_decide_eq_false hne
        simp [he]
  · intro env c hsig hnone
    have he : newContentOf c = c := newContentOf_eq_of_no_match c hnone
    obtain ⟨r, w⟩ := env
    cases r with
    | fail => rfl
    | ok =>
      unfold update_file
      rw [hsig]
      simp [he]

/-- Concrete input for the C5 witness: the spec's scenario of the
signature substring present only inside ordinary text, with no header
block shaped per the pattern. -/
def w5 : List Char :=
  ("// note: Permission is hereby granted, free of charge\n").data

set_option maxRecDepth 10000 in
/-- Witness for C5 at a concrete file content. -/
theorem write_iff_content_differs_witness :
    (containsSub signature w5 = true ∧
      findLeftmost MIT_LICENSE_PATTERN
        (w5.length + sizeRe MIT_LICENSE_PATTERN + 1) w5 = none) ∧
    update_file ⟨ReadOutcome.ok, WriteOutcome.failPartial 3⟩ w5 = (false, w5) :=
  ⟨⟨by decide, by decide⟩,
    write_iff_content_differs.2 ⟨ReadOutcome.ok, WriteOutcome.failPartial 3⟩ w5
      (by decide) (by decide)⟩

/-- C8: every raising read or write outcome is contained inside
`update_file`: the call always returns (never propagates), with result
`False`; a read failure leaves the content untouched; and the loop of
`main` keeps folding over the remaining entries whatever state earlier
entries produced. -/
theorem exceptions_contained_per_file :
    (∀ (env : FileEnv) (c : List Char),
      env.read = ReadOutcome.fail → update_file env c = (false, c)) ∧
    (∀ (env : FileEnv) (c : List Char),
      env.read = ReadOutcome.fail ∨ env.write ≠ WriteOutcome.ok →
      (update_file env c).1 = false) ∧
    (∀ (l1 l2 : List Entry) (st : Store × Nat),
      (l1 ++ l2).foldl runStep st = l2.foldl runStep (l1.foldl runStep st)) := by
  refine ⟨?_, ?_, ?_⟩
  · intro env c h
    obtain ⟨r, w⟩ := env
    simp only at h
    subst h
    rfl
  · intro env c h
    obtain ⟨r, w⟩ := env
    cases r with
    | fail => rfl
    | ok =>
      have hw : w ≠ WriteOutcome.ok := by
        cases h with
        | inl h => simp at h
        | inr h => simpa using h
      unfold update_file
      simp only
      split
      · split
        · cases w with
          | ok => exact absurd rfl hw
          | failOpen => rfl
          | failPartial k => rfl
        · rfl
      · rfl
  · intro l1 l2 st
    rw [List.foldl_append]

/-- Concrete content for the C8 witness. -/
def w8 : List Char := ("let z = 3;\n").data

/-- Witness for C8 at concrete failing environments. -/
theorem exceptions_contained_per_file_witness :
    ((⟨ReadOutcome.fail, WriteOutcome.ok⟩ : FileEnv).read = ReadOutcome.fail ∧
      ((⟨ReadOutcome.ok, WriteOutcome.failOpen⟩ : FileEnv).read = ReadOutcome.fail ∨
        (⟨ReadOutcome.ok, WriteOutcome.failOpen⟩ : FileEnv).write ≠ WriteOutcome.ok)) ∧
    update_file ⟨ReadOutcome.fail, WriteOutcome.ok⟩ w8 = (false, w8) ∧
    (update_file ⟨ReadOutcome.ok, WriteOutcome.failOpen⟩ w8).1 = false :=
  ⟨⟨rfl, Or.inr (by decide)⟩,
    exceptions_contained_per_file.1 ⟨ReadOutcome.fail, WriteOutcome.ok⟩ w8 rfl,
    exceptions_contained_per_file.2.1 ⟨ReadOutcome.ok, WriteOutcome.failOpen⟩ w8
      (Or.inr (by decide))⟩

/-- Concrete input refuting C9: content with a matching header and the
signature, processed with a write that raises right after the
truncating open, before any character is written. -/
def c9input : List Char :=
  ("/**\n * Copyright (c) 2019 Philip L. Giacalone\n *\n * Permission is hereby granted\n */\nkeep();\n").data

set_option maxRecDepth 10000 in
/-- Counterexample to C9: the read succeeded and the write failed, yet
the on-disk content after the call (empty: the truncating `open`
completed, the write of the new content did not) differs from the
content before the call. -/
theorem interrupted_write_clobbers_file :
    (update_file ⟨ReadOutcome.ok, WriteOutcome.failPartial 0⟩ c9input).2 = [] ∧
    (update_file ⟨ReadOutcome.ok, WriteOutcome.failPartial 0⟩ c9input).1 = false ∧
    c9input ≠ [] :=
  ⟨by decide, by decide, by decide⟩

/-- C9 amended: the pre-write content survives a failed write exactly
when the failure strikes before the truncating `open(path, 'w')`
succeeds; a failure after it may leave a prefix of the new content
instead. -/
theorem failed_open_preserves_content
    (env : FileEnv) (c : List Char)
    (h : env.write = WriteOutcome.failOpen) :
    (update_file env c).1 = false ∧ (update_file env c).2 = c := by
  obtain ⟨r, w⟩ := env
  simp only at h
  subst h
  cases r with
  | fail => exact ⟨rfl, rfl⟩
  | ok =>
    unfold update_file
    simp only
    split
    · split
      · exact ⟨rfl, rfl⟩
      · exact ⟨rfl, rfl⟩
    · exact ⟨rfl, rfl⟩

/-- Concrete content for the amended-C9 witness: the write would have
happened, but its open raises. -/
def w9 : List Char :=
  ("/**\n * Copyright (c) 2018 Philip L. Giacalone\n *\n * Permission is hereby granted\n */\nw();\n").data

/-- Witness for the amended C9 at a concrete file content. -/
theorem failed_open_preserves_content_witness :
    (⟨ReadOutcome.ok, WriteOutcome.failOpen⟩ : FileEnv).write = WriteOutcome.failOpen ∧
    ((update_file ⟨ReadOutcome.ok, WriteOutcome.failOpen⟩ w9).1 = false ∧
      (update_file ⟨ReadOutcome.ok, WriteOutcome.failOpen⟩ w9).2 = w9) :=
  ⟨rfl, failed_open_preserves_content ⟨ReadOutcome.ok, WriteOutcome.failOpen⟩ w9 rfl⟩

/-- Unpacking membership in the candidate list of `main`'s loop: a
visited entry was listed, matches some extension glob, passes the
exclusion test and is a regular file. -/
theorem mem_visitedEntries (fs : List Entry) (e : Entry)
    (h : e ∈ visitedEntries fs) :
    (∃ ext ∈ extensions, rglobMatches ext e = true) ∧
    should_process_file e.path = true ∧ e.isFile = true ∧ e ∈ fs := by
  unfold visitedEntries at h
  simp only [List.mem_flatMap, List.mem_filter, Bool.and_eq_true] at h
  obtain ⟨ext, hext, ⟨hfs, hg⟩, hsp, hfile⟩ := h
  exact ⟨⟨ext, hext, hg⟩, hsp, hfile, hfs⟩

/-- The store is untouched at any path no processed entry carries. -/
theorem foldl_runStep_untouched (p : List Char) :
    ∀ (l : List Entry) (st : Store × Nat),
      (∀ e ∈ l, e.path ≠ p) → (l.foldl runStep st).1 p = st.1 p := by
  intro l
  induction l with
  | nil => intro st _; rfl
  | cons e l ih =>
    intro st h
    rw [List.foldl_cons,
      ih (runStep st e) (fun x hx => h x (List.mem_cons_of_mem e hx))]
    have hne : e.path ≠ p := h e (List.mem_cons_self e l)
    have hr : (runStep st e).1 p
        = if p = e.path then (update_file e.env (st.1 e.path)).2 else st.1 p := rfl
    rw [hr, if_neg (fun hp => hne hp.symm)]

/-- C6: a path carrying one of the exclusion substrings is neither read
nor modified by the run, whatever the listing, the initial contents and
the per-file environments are. -/
theorem excluded_paths_never_touched
    (fs : List Entry) (init : Store) (p : List Char)
    (h : ∃ excl ∈ exclusions, containsSub excl p = true) :
    ¬ p ∈ pathsRead fs ∧ (runMain fs init).1 p = init p := by
  have hsp : should_process_file p = false := by
    obtain ⟨excl, hmem, hc⟩ := h
    have ha : exclusions.any (fun excl => containsSub excl p) = true :=
      List.any_eq_true.mpr ⟨excl, hmem, hc⟩
    unfold should_process_file
    rw [ha]
    rfl
  have hne : ∀ e ∈ visitedEntries fs, e.path ≠ p := by
    intro e he hep
    obtain ⟨_, hspe, _, _⟩ := mem_visitedEntries fs e he
    rw [hep, hsp] at hspe
    exact Bool.noConfusion hspe
  constructor
  · intro hp
    unfold pathsRead at hp
    obtain ⟨e, he, hep⟩ := List.mem_map.mp hp
    exact hne e he hep
  · unfold runMain
    rw [foldl_runStep_untouched p (visitedEntries fs) (init, 0) hne]

/-- Listing and initial contents for the C6 witness: an excluded file
that matches an extension and holds the signature. -/
def fs6 : List Entry :=
  [⟨("node_modules/a.ts").data, true, ⟨ReadOutcome.ok, WriteOutcome.ok⟩⟩]

/-- Initial store for the C6 witness. -/
def init6 : Store := fun _ => ("Permission is hereby granted").data

/-- Witness for C6 at a concrete listing. -/
theorem excluded_paths_never_touched_witness :
    (∃ excl ∈ exclusions, containsSub excl (("node_modules/a.ts").data) = true) ∧
    (¬ ("node_modules/a.ts").data ∈ pathsRead fs6 ∧
      (runMain fs6 init6).1 (("node_modules/a.ts").data)
        = init6 (("node_modules/a.ts").data)) :=
  ⟨⟨("node_modules").data, by decide, by decide⟩,
    excluded_paths_never_touched fs6 init6 (("node_modules/a.ts").data)
      ⟨("node_modules").data, by decide, by decide⟩⟩

/-- C7: every entry the run visits (reads, and possibly writes) has a
path ending in one of the four fixed extensions and is a regular file;
entries failing either test are never visited. -/
theorem visited_paths_extension_and_file
    (fs : List Entry) (e : Entry) (h : e ∈ visitedEntries fs) :
    extensions.any (fun ext => ext.isSuffixOf e.path) = true ∧
    e.isFile = true := by
  obtain ⟨⟨ext, hext, hg⟩, _, hfile, _⟩ := mem_visitedEntries fs e h
  refine ⟨?_, hfile⟩
  simp only [List.any_eq_true]
  exact ⟨ext, hext, hg⟩

/-- Listing for the C7 witness: a matching file, a file of another
extension, and a directory whose name matches an extension. -/
def fs7 : List Entry :=
  [⟨("src/app.tsx").data, true, ⟨ReadOutcome.ok, WriteOutcome.ok⟩⟩,
   ⟨("README.md").data, true, ⟨ReadOutcome.ok, WriteOutcome.ok⟩⟩,
   ⟨("vendor.ts").data, false, ⟨ReadOutcome.ok, WriteOutcome.ok⟩⟩]

/-- Witness for C7 at a concrete listing. -/
theorem visited_paths_extension_and_file_witness :
    (⟨("src/app.tsx").data, true, ⟨ReadOutcome.ok, WriteOutcome.ok⟩⟩ : Entry)
        ∈ visitedEntries fs7 ∧
    (extensions.any (fun ext =>
        ext.isSuffixOf (("src/app.tsx").data)) = true ∧
      (⟨("src/app.tsx").data, true,
        ⟨ReadOutcome.ok, WriteOutcome.ok⟩⟩ : Entry).isFile = true) :=
  ⟨by decide,
    visited_paths_extension_and_file fs7
      ⟨("src/app.tsx").data, true, ⟨ReadOutcome.ok, WriteOutcome.ok⟩⟩ (by decide)⟩
